import Mathlib

/-!
Verification of the extraction-coordination persistence layer.

A shallow embedding of `src/persistence.rs`: the content store, extraction
event log, binding completion tracker, candidate selector and work queue,
with theorems checking the natural-language specification against the code.

Database state is modelled as lists of typed rows (`Store`); each
`Repository` method becomes a pure function on `Store`.  A Rust `panic!`
(an `unwrap()` on `None`) is modelled as the `none` result of an
`Option`-returning function; a `Result::Err` is an `Except.error`.
Randomness (`nanoid!()`) and wall-clock time (`SystemTime::now()`) are
passed in as explicit arguments.
-/

/-! ## 64-bit arithmetic and SipHash-1-3

Rust's `std::collections::hash_map::DefaultHasher` is SipHash-1-3 with
both keys zero; `persistence.rs` derives content / work identifiers from
it via `format!("{:x}", hasher.finish())`. -/

def w64 (x : Nat) : Nat := x % 18446744073709551616

def rotl64 (x r : Nat) : Nat :=
  (x * 2 ^ r + x / 2 ^ (64 - r)) % 18446744073709551616

structure SipState where
  v0 : Nat
  v1 : Nat
  v2 : Nat
  v3 : Nat
deriving DecidableEq

def sipRound (s : SipState) : SipState :=
  let v0 := w64 (s.v0 + s.v1)
  let v1 := rotl64 s.v1 13
  let v1 := v1 ^^^ v0
  let v0 := rotl64 v0 32
  let v2 := w64 (s.v2 + s.v3)
  let v3 := rotl64 s.v3 16
  let v3 := v3 ^^^ v2
  let v0 := w64 (v0 + v3)
  let v3 := rotl64 v3 21
  let v3 := v3 ^^^ v0
  let v2 := w64 (v2 + v1)
  let v1 := rotl64 v1 17
  let v1 := v1 ^^^ v2
  let v2 := rotl64 v2 32
  ⟨v0, v1, v2, v3⟩

/-- One SipHash-1-3 compression step: xor the message word into `v3`,
run one round, xor it into `v0`. -/
def sipCompress (s : SipState) (m : Nat) : SipState :=
  let s1 := sipRound { s with v3 := s.v3 ^^^ m }
  { s1 with v0 := s1.v0 ^^^ m }

/-- Little-endian interpretation of a byte list. -/
def leNat : List Nat → Nat
  | [] => 0
  | b :: rest => b + 256 * leNat rest

/-- Split a byte stream into full 8-byte little-endian words plus a tail
of fewer than 8 bytes. -/
def sipBlocks : List Nat → List Nat × List Nat
  | b0 :: b1 :: b2 :: b3 :: b4 :: b5 :: b6 :: b7 :: rest =>
      let p := sipBlocks rest
      (leNat [b0, b1, b2, b3, b4, b5, b6, b7] :: p.1, p.2)
  | rest => ([], rest)

def sipHash13Keyed (k0 k1 : Nat) (msg : List Nat) : Nat :=
  let s0 : SipState :=
    ⟨k0 ^^^ 0x736f6d6570736575, k1 ^^^ 0x646f72616e646f6d,
     k0 ^^^ 0x6c7967656e657261, k1 ^^^ 0x7465646279746573⟩
  let bt := sipBlocks msg
  let s1 := bt.1.foldl sipCompress s0
  let finalBlock := w64 ((msg.length % 256) * 2 ^ 56 + leNat bt.2)
  let s2 := sipCompress s1 finalBlock
  let s3 := sipRound (sipRound (sipRound { s2 with v2 := s2.v2 ^^^ 0xff }))
  s3.v0 ^^^ s3.v1 ^^^ s3.v2 ^^^ s3.v3

/-- Rust's `DefaultHasher::new()` is SipHash-1-3 with keys `(0, 0)`. -/
def defaultHasherFinish (msg : List Nat) : Nat := sipHash13Keyed 0 0 msg

/-- UTF-8 encoding of one character (Rust `str::as_bytes` semantics). -/
def charUtf8 (c : Char) : List Nat :=
  let n := c.toNat
  if n < 0x80 then [n]
  else if n < 0x800 then [0xC0 + n / 64, 0x80 + n % 64]
  else if n < 0x10000 then
    [0xE0 + n / 4096, 0x80 + n / 64 % 64, 0x80 + n % 64]
  else
    [0xF0 + n / 262144, 0x80 + n / 4096 % 64, 0x80 + n / 64 % 64, 0x80 + n % 64]

def strBytes (s : String) : List Nat :=
  (s.data.map charUtf8).flatten

/-- The byte stream `Hash for str` feeds to the hasher: the UTF-8 bytes
followed by a `0xff` terminator. -/
def strFeed (s : String) : List Nat := strBytes s ++ [0xff]

/-- Rust's `format!("{:x}", n)`: lowercase hex, no leading zeros. -/
def natToHex (n : Nat) : String := String.mk (Nat.toDigits 16 n)

/-! ## JSON scalar values

`serde_json::Value` restricted to the scalar shapes the persistence layer
stores in `metadata` and filter values.  `asStr` models
`Value::as_str` (some only for strings); `asText` models the Postgres
`->>` text extraction, which yields SQL `NULL` for a JSON `null`. -/

inductive JsonVal where
  | null : JsonVal
  | bool (b : Bool) : JsonVal
  | num (n : Int) : JsonVal
  | str (s : String) : JsonVal
deriving DecidableEq

def JsonVal.asStr : JsonVal → Option String
  | .str s => some s
  | _ => none

def JsonVal.asText : JsonVal → Option String
  | .null => none
  | .bool b => some (if b then "true" else "false")
  | .num n => some (toString n)
  | .str s => some s

/-- Key lookup in a JSON object, modelled as an association list
(`->` / `->>` on a jsonb object returns the value at the first matching
key, `NULL` when absent). -/
def lookupJson : List (String × JsonVal) → String → Option JsonVal
  | [], _ => none
  | (k, v) :: rest, field => if k = field then some v else lookupJson rest field

/-- SQL text extraction `metadata->>field`: text of the field's value, `NULL` when the field
is absent or its value is JSON `null`. -/
def metaText (m : List (String × JsonVal)) (field : String) : Option String :=
  (lookupJson m field).bind JsonVal.asText

/-- Key lookup in the integer-valued completion map
(`extractor_bindings_state->'state'`). -/
def lookupMarker : List (String × Int) → String → Option Int
  | [], _ => none
  | (k, v) :: rest, b => if k = b then some v else lookupMarker rest b

/-- jsonb subscript assignment `m[b] = v`: replace the entry at key `b`,
inserting it when absent. -/
def setMarker : List (String × Int) → String → Int → List (String × Int)
  | [], b, v => [(b, v)]
  | (k, x) :: rest, b, v =>
      if k = b then (b, v) :: rest else (k, x) :: setMarker rest b v

/-! ## Domain types (from `persistence.rs`) -/

inductive PayloadType where
  | embeddedStorage : PayloadType
  | blobStorageLink : PayloadType
deriving DecidableEq

def PayloadType.toStr : PayloadType → String
  | .embeddedStorage => "embedded_storage"
  | .blobStorageLink => "blob_storage_link"

structure ContentPayload where
  id : String
  content_type : String
  payload : String
  payload_type : PayloadType
  metadata : List (String × JsonVal)
deriving DecidableEq

/-- Model of `ContentPayload::from_text`: the id is the lowercase-hex
`DefaultHasher` digest of `repository` then `text` (each hashed as a
`str`: UTF-8 bytes plus a `0xff` terminator). -/
def ContentPayload.from_text (repository text : String)
    (metadata : List (String × JsonVal)) : ContentPayload :=
  { id := natToHex (defaultHasherFinish (strFeed repository ++ strFeed text))
    content_type := "text/plain"
    payload := text
    payload_type := .embeddedStorage
    metadata := metadata }

inductive ExtractorFilter where
  | eq (field : String) (value : JsonVal) : ExtractorFilter
  | neq (field : String) (value : JsonVal) : ExtractorFilter
deriving DecidableEq

def ExtractorFilter.value : ExtractorFilter → JsonVal
  | .eq _ v => v
  | .neq _ v => v

structure ExtractorBinding where
  name : String
  repository : String
  extractor : String
  filters : List ExtractorFilter
  input_params : JsonVal
deriving DecidableEq

inductive WorkState where
  | unknown : WorkState
  | pending : WorkState
  | inProgress : WorkState
  | completed : WorkState
  | failed : WorkState
deriving DecidableEq

/-- Serialization per `strum::Display` with its default: the variant name. -/
def WorkState.toStr : WorkState → String
  | .unknown => "Unknown"
  | .pending => "Pending"
  | .inProgress => "InProgress"
  | .completed => "Completed"
  | .failed => "Failed"

/-- Parsing per `strum::EnumString`: a variant name, erring otherwise. -/
def WorkState.fromStr (s : String) : Option WorkState :=
  if s = "Unknown" then some .unknown
  else if s = "Pending" then some .pending
  else if s = "InProgress" then some .inProgress
  else if s = "Completed" then some .completed
  else if s = "Failed" then some .failed
  else none

structure Work where
  id : String
  content_id : String
  repository_id : String
  extractor : String
  extractor_binding : String
  extractor_params : JsonVal
  work_state : WorkState
  executor_id : Option String
deriving DecidableEq

/-- Model of `Work::new`: the id hashes `(content_id, repository, extractor,
extractor_binding)` — not the params and not the worker; `work_state` is
set to `Pending` and `executor_id` to the (optionally provided) worker. -/
def Work.new (content_id repository extractor extractor_binding : String)
    (extractor_params : JsonVal) (worker_id : Option String) : Work :=
  { id := natToHex (defaultHasherFinish
      (strFeed content_id ++ strFeed repository ++ strFeed extractor ++
        strFeed extractor_binding))
    content_id := content_id
    repository_id := repository
    extractor := extractor
    extractor_binding := extractor_binding
    extractor_params := extractor_params
    work_state := .pending
    executor_id := worker_id }

inductive ExtractionEventPayload where
  | extractorBindingAdded (repository : String) (id : String) : ExtractionEventPayload
  | createContent (content_id : String) : ExtractionEventPayload
deriving DecidableEq

structure ExtractionEvent where
  id : String
  repository_id : String
  payload : ExtractionEventPayload
deriving DecidableEq

/-! ## Row models and the store

One structure per row family touched by the claims.  The
`extractor_bindings_state` field of a content row models the object
under the `'state'` key of the JSON column (all writers keep the column
of shape `{"state": {...}}`, markers being integers). -/

structure ContentModel where
  id : String
  repository_id : String
  payload : String
  payload_type : String
  metadata : List (String × JsonVal)
  content_type : String
  extractor_bindings_state : List (String × Int)
deriving DecidableEq

structure EventModel where
  id : String
  payload : ExtractionEvent
  processed_at : Option Int
deriving DecidableEq

structure WorkModel where
  id : String
  state : String
  worker_id : Option String
  content_id : String
  extractor : String
  extractor_binding : String
  extractor_params : JsonVal
  repository_id : String
deriving DecidableEq

structure Store where
  content : List ContentModel
  events : List EventModel
  work : List WorkModel
deriving DecidableEq

def emptyStore : Store := ⟨[], [], []⟩

/-- The error a plain `INSERT` raises on a primary-key collision
(`DbErr` from the store, surfaced as `RepositoryError::DatabaseError`). -/
inductive DbError where
  | uniqueViolation : DbError
deriving DecidableEq

/-! ## Repository operations -/

/-- The content row `add_content` builds for a payload: the completion
column starts as the default `ExtractorBindingsState` (an empty map). -/
def contentModelOf (repository : String) (p : ContentPayload) : ContentModel :=
  { id := p.id
    repository_id := repository
    payload := p.payload
    payload_type := p.payload_type.toStr
    metadata := p.metadata
    content_type := p.content_type
    extractor_bindings_state := [] }

/-- Model of `Repository::add_content`: insert the content rows with
`ON CONFLICT (id) DO NOTHING`; when no row at all was inserted the
`RecordNotInserted` branch returns early WITHOUT writing the extraction
events, otherwise one `CreateContent` event per payload is appended.
`event_ids` supplies the `nanoid!()` randomness, one id per payload. -/
def add_content (st : Store) (repository : String)
    (payloads : List ContentPayload) (event_ids : List String) : Store :=
  let rows := payloads.map (contentModelOf repository)
  let newContent := rows.foldl
    (fun acc r => if acc.any (fun x => x.id = r.id) then acc else acc ++ [r])
    st.content
  let evs := (payloads.zip event_ids).map (fun pe =>
    { id := pe.2
      payload := { id := pe.2, repository_id := repository
                   payload := .createContent pe.1.id }
      processed_at := none : EventModel })
  if newContent.length = st.content.length then
    { st with content := newContent }
  else
    { st with content := newContent, events := st.events ++ evs }

/-- One compiled SQL comparison from a binding filter:
`metadata->>field = value` or `metadata->>field != value`, the value
already forced to a string by `Value::as_str().unwrap()`. -/
inductive SqlCond where
  | eqText (field : String) (value : String) : SqlCond
  | neqText (field : String) (value : String) : SqlCond
deriving DecidableEq

/-- The filter-compilation loop of `content_with_unapplied_extractor`;
`none` models the panic of `value.as_str().unwrap()` on a non-string
filter value. -/
def compileFilters : List ExtractorFilter → Option (List SqlCond)
  | [] => some []
  | .eq field v :: rest =>
      match v.asStr with
      | none => none
      | some s => (compileFilters rest).map (fun cs => .eqText field s :: cs)
  | .neq field v :: rest =>
      match v.asStr with
      | none => none
      | some s => (compileFilters rest).map (fun cs => .neqText field s :: cs)

/-- SQL three-valued comparison against `metadata->>field`: a `NULL`
text (missing field or JSON null) satisfies neither `=` nor `!=`. -/
def evalCond (c : ContentModel) : SqlCond → Bool
  | .eqText field v =>
      match metaText c.metadata field with
      | some t => decide (t = v)
      | none => false
  | .neqText field v =>
      match metaText c.metadata field with
      | some t => decide (t ≠ v)
      | none => false

/-- The completion check `COALESCE(cast(extractor_bindings_state->'state'->>name as int),0) < 1`. -/
def completionPending (c : ContentModel) (bindingName : String) : Bool :=
  decide ((lookupMarker c.extractor_bindings_state bindingName).getD 0 < 1)

/-- The WHERE clause of the raw candidate-selection query. -/
def rowSelected (repo bindingName : String) (cid : Option String)
    (conds : List SqlCond) (c : ContentModel) : Bool :=
  decide (c.repository_id = repo) &&
  completionPending c bindingName &&
  (match cid with
   | none => true
   | some i => decide (c.id = i)) &&
  conds.all (evalCond c)

/-- Model of `Repository::content_with_unapplied_extractor`: compile the binding's
filters (panicking — `none` — on a non-string filter value), then return
the repository's content rows whose completion marker for the binding is
absent or `< 1`, restricted to `cid` when given, and satisfying every
compiled comparison. -/
def content_with_unapplied_extractor (st : Store) (repo_id : String)
    (binding : ExtractorBinding) (content_id : Option String) :
    Option (List ContentModel) :=
  (compileFilters binding.filters).map (fun conds =>
    st.content.filter (rowSelected repo_id binding.name content_id conds))

/-- Model of `Repository::mark_content_as_processed`:
`update content set extractor_bindings_state['state'][$2] = '1' where id=$1`
— a targeted jsonb subscript write of marker `1` for the one binding, on
the rows whose id matches. -/
def mark_content_as_processed (st : Store) (content_id binding_id : String) :
    Store :=
  { st with content := st.content.map (fun c =>
      if c.id = content_id then
        { c with extractor_bindings_state :=
            setMarker c.extractor_bindings_state binding_id 1 }
      else c) }

/-- Model of `Repository::mark_extraction_event_as_processed`: look the event up
by id, `.unwrap()` the Option (a missing event panics — `none`), then
set `processed_at` to the current wall-clock time `now` and update the
row. -/
def mark_extraction_event_as_processed (st : Store) (extraction_id : String)
    (now : Int) : Option Store :=
  match st.events.find? (fun e => e.id == extraction_id) with
  | none => none
  | some _ => some { st with events := st.events.map (fun e =>
      if e.id = extraction_id then { e with processed_at := some now } else e) }

/-- The row `insert_work` writes for a `Work`. -/
def workModelOf (w : Work) : WorkModel :=
  { id := w.id
    state := w.work_state.toStr
    worker_id := w.executor_id
    content_id := w.content_id
    extractor := w.extractor
    extractor_binding := w.extractor_binding
    extractor_params := w.extractor_params
    repository_id := w.repository_id }

/-- Model of `Repository::insert_work`: a plain `INSERT` with no `ON CONFLICT`
clause.  The work table is keyed by `id` (spec §3/§6: each row family is
independently keyed by its deterministic id; the `entity` crate defining
the column set is outside `src/`), so inserting an id that already
exists raises a database error instead of being ignored. -/
def insert_work (st : Store) (work : Work) : Except DbError Store :=
  if st.work.any (fun r => r.id = work.id) then
    .error .uniqueViolation
  else
    .ok { st with work := st.work ++ [workModelOf work] }

/-- Model of `TryFrom<work::Model> for Work`: `WorkState::from_str(..).unwrap()`
— `none` models the panic on an unparseable state string. -/
def workTryFrom (m : WorkModel) : Option Work :=
  (WorkState.fromStr m.state).map (fun ws =>
    { id := m.id
      content_id := m.content_id
      repository_id := m.repository_id
      extractor := m.extractor
      extractor_binding := m.extractor_binding
      extractor_params := m.extractor_params
      work_state := ws
      executor_id := m.worker_id })

/-- Model of `Repository::update_work_state`: `update_many` sets the state column
on every row with the given id (no check of the prior state) and returns
the updated rows; an empty returned list is reported as an
"unable to find work" error.  The pair holds the store after the UPDATE
and the call's outcome (`none` = panic in the row decode). -/
def update_work_state (st : Store) (work_id : String) (state : WorkState) :
    Store × Option (Except String Work) :=
  let result := (st.work.filter (fun m => m.id = work_id)).map
    (fun m => { m with state := state.toStr })
  let st' := { st with work := st.work.map (fun m =>
    if m.id = work_id then { m with state := state.toStr } else m) }
  match result with
  | [] => (st', some (.error ("unable to find work " ++ work_id)))
  | m :: _ =>
      match workTryFrom m with
      | none => (st', none)
      | some w => (st', some (.ok w))

/-- Model of `Repository::assign_work`: for each `(work_id, executor_id)` pair an
unconditional `update_many` setting only the worker column on the rows
with that id.  The `HashMap` is modelled as an association list with
distinct keys. -/
def assign_work (st : Store) (allocation : List (String × String)) : Store :=
  allocation.foldl
    (fun s p =>
      { s with work := s.work.map (fun r =>
          if r.id = p.1 then { r with worker_id := some p.2 } else r) })
    st

/-- The per-row effect of the `assign_work` loop, applied left to
right. -/
def applyAlloc : List (String × String) → WorkModel → WorkModel
  | [], r => r
  | p :: rest, r =>
      applyAlloc rest (if r.id = p.1 then { r with worker_id := some p.2 } else r)

/-! ## The selection predicate as the specification words it

Claim C1 describes the candidate set directly: content of the
repository, completion marker absent or below 1, every filter satisfied,
where `Eq` holds iff the metadata field equals the value, `Neq` iff it
differs, and a missing field excludes the content.  These definitions
follow that wording; the refinement theorem compares them with the
source-derived `content_with_unapplied_extractor`. -/

def specFilterHolds (c : ContentModel) : ExtractorFilter → Bool
  | .eq field value =>
      match lookupJson c.metadata field with
      | some j => decide (j = value)
      | none => false
  | .neq field value =>
      match lookupJson c.metadata field with
      | some j => decide (j ≠ value)
      | none => false

/-- The claim's completion condition: the marker for the binding is
absent or below 1. -/
def specCompletionPending (c : ContentModel) (bindingName : String) : Bool :=
  match lookupMarker c.extractor_bindings_state bindingName with
  | none => true
  | some v => decide (v < 1)

def specSelected (repo : String) (binding : ExtractorBinding)
    (c : ContentModel) : Bool :=
  decide (c.repository_id = repo) &&
  specCompletionPending c binding.name &&
  binding.filters.all (specFilterHolds c)

/-! ## Concrete fixtures for witnesses and counterexamples -/

def pipeRow : ContentModel :=
  { id := "c1", repository_id := "test", payload := "hello",
    payload_type := "embedded_storage",
    metadata := [("topic", .str "pipe")], content_type := "text/plain",
    extractor_bindings_state := [] }

def bazRow : ContentModel :=
  { id := "c2", repository_id := "test", payload := "world",
    payload_type := "embedded_storage",
    metadata := [("topic", .str "baz")], content_type := "text/plain",
    extractor_bindings_state := [] }

def selStore : Store := { content := [pipeRow, bazRow], events := [], work := [] }

def eqBinding : ExtractorBinding :=
  { name := "extractor_binding1", repository := "test", extractor := "extractor1",
    filters := [.eq "topic" (.str "pipe")], input_params := .null }

def badBinding : ExtractorBinding :=
  { name := "extractor_binding1", repository := "test", extractor := "extractor1",
    filters := [.eq "topic" (.num 3)], input_params := .null }

def evRow : EventModel :=
  { id := "ev1",
    payload := { id := "ev1", repository_id := "test",
                 payload := .createContent "c1" },
    processed_at := none }

def evStore : Store := { content := [], events := [evRow], work := [] }

def cx3Work : Work := Work.new "c1" "test" "extractor1" "binding1" .null none

def wRow : WorkModel :=
  { id := "w1", state := "Completed", worker_id := some "old-executor",
    content_id := "c1", extractor := "extractor1",
    extractor_binding := "binding1", extractor_params := .null,
    repository_id := "test" }

def wStore : Store := { content := [], events := [], work := [wRow] }


/-! ## Helper lemmas -/

theorem lookupMarker_setMarker_self (m : List (String × Int)) (b : String)
    (v : Int) : lookupMarker (setMarker m b v) b = some v := by
  induction m with
  | nil => simp [setMarker, lookupMarker]
  | cons p rest ih =>
      by_cases h : p.1 = b
      · simp [setMarker, lookupMarker, h]
      · simpa [setMarker, lookupMarker, h] using ih

theorem lookupMarker_setMarker_ne (m : List (String × Int)) (a b : String)
    (v : Int) (h : b ≠ a) :
    lookupMarker (setMarker m a v) b = lookupMarker m b := by
  have h' : ¬a = b := fun hab => h hab.symm
  induction m with
  | nil => simp [setMarker, lookupMarker, h']
  | cons p rest ih =>
      by_cases hp : p.1 = a
      · simp [setMarker, lookupMarker, hp, h, h']
      · by_cases hb : p.1 = b
        · simp [setMarker, lookupMarker, hp, hb, h, h']
        · simpa [setMarker, lookupMarker, hp, hb] using ih

theorem lookupJson_isStr (m : List (String × JsonVal)) (field : String)
    (j : JsonVal) (hm : ∀ p ∈ m, (p.2.asStr).isSome = true)
    (h : lookupJson m field = some j) : ∃ s, j = .str s := by
  induction m with
  | nil => simp [lookupJson] at h
  | cons p rest ih =>
      rw [lookupJson] at h
      by_cases hk : p.1 = field
      · rw [if_pos hk] at h
        have hpj : p.2 = j := Option.some.inj h
        have hps := hm p (List.mem_cons_self p rest)
        cases hv : p.2 with
        | str s => exact ⟨s, by rw [← hpj, hv]⟩
        | null => rw [hv] at hps; simp [JsonVal.asStr] at hps
        | bool b => rw [hv] at hps; simp [JsonVal.asStr] at hps
        | num n => rw [hv] at hps; simp [JsonVal.asStr] at hps
      · rw [if_neg hk] at h
        exact ih (fun q hq => hm q (List.mem_cons_of_mem p hq)) h

theorem completionPending_eq_spec (c : ContentModel) (b : String) :
    completionPending c b = specCompletionPending c b := by
  unfold completionPending specCompletionPending
  cases h : lookupMarker c.extractor_bindings_state b <;> simp [Option.getD]

theorem compileFilters_eq_none (fs : List ExtractorFilter)
    (h : ∃ f ∈ fs, f.value.asStr = none) : compileFilters fs = none := by
  induction fs with
  | nil => simp at h
  | cons f rest ih =>
      obtain ⟨g, hg, hgv⟩ := h
      rcases List.mem_cons.mp hg with rfl | hg'
      · cases g with
        | eq field v => simp [ExtractorFilter.value] at hgv; simp [compileFilters, hgv]
        | neq field v => simp [ExtractorFilter.value] at hgv; simp [compileFilters, hgv]
      · have hrest := ih ⟨g, hg', hgv⟩
        cases f with
        | eq field v => cases hv : v.asStr <;> simp [compileFilters, hv, hrest]
        | neq field v => cases hv : v.asStr <;> simp [compileFilters, hv, hrest]

theorem compileFilters_eq_some (fs : List ExtractorFilter)
    (hf : ∀ f ∈ fs, (f.value.asStr).isSome = true) :
    ∃ conds, compileFilters fs = some conds ∧
      ∀ c : ContentModel, (∀ p ∈ c.metadata, (p.2.asStr).isSome = true) →
        conds.all (evalCond c) = fs.all (specFilterHolds c) := by
  induction fs with
  | nil => exact ⟨[], rfl, fun c _ => rfl⟩
  | cons f rest ih =>
      obtain ⟨conds, hc, he⟩ := ih (fun g hg => hf g (List.mem_cons_of_mem f hg))
      have hfv := hf f (List.mem_cons_self f rest)
      cases f with
      | eq field v =>
          obtain ⟨s, rfl⟩ : ∃ s, v = JsonVal.str s := by
            cases v with
            | str s => exact ⟨s, rfl⟩
            | null => simp [ExtractorFilter.value, JsonVal.asStr] at hfv
            | bool b => simp [ExtractorFilter.value, JsonVal.asStr] at hfv
            | num n => simp [ExtractorFilter.value, JsonVal.asStr] at hfv
          refine ⟨.eqText field s :: conds, ?_, ?_⟩
          · simp [compileFilters, JsonVal.asStr, hc]
          · intro c hm
            have hhead : evalCond c (.eqText field s)
                = specFilterHolds c (.eq field (.str s)) := by
              cases hlk : lookupJson c.metadata field with
              | none => simp [evalCond, specFilterHolds, metaText, hlk]
              | some j =>
                  obtain ⟨t, rfl⟩ := lookupJson_isStr c.metadata field j hm hlk
                  by_cases hts : t = s <;>
                    simp [evalCond, specFilterHolds, metaText, hlk,
                      JsonVal.asText, hts]
            simp [List.all_cons, hhead, he c hm]
      | neq field v =>
          obtain ⟨s, rfl⟩ : ∃ s, v = JsonVal.str s := by
            cases v with
            | str s => exact ⟨s, rfl⟩
            | null => simp [ExtractorFilter.value, JsonVal.asStr] at hfv
            | bool b => simp [ExtractorFilter.value, JsonVal.asStr] at hfv
            | num n => simp [ExtractorFilter.value, JsonVal.asStr] at hfv
          refine ⟨.neqText field s :: conds, ?_, ?_⟩
          · simp [compileFilters, JsonVal.asStr, hc]
          · intro c hm
            have hhead : evalCond c (.neqText field s)
                = specFilterHolds c (.neq field (.str s)) := by
              cases hlk : lookupJson c.metadata field with
              | none => simp [evalCond, specFilterHolds, metaText, hlk]
              | some j =>
                  obtain ⟨t, rfl⟩ := lookupJson_isStr c.metadata field j hm hlk
                  by_cases hts : t = s <;>
                    simp [evalCond, specFilterHolds, metaText, hlk,
                      JsonVal.asText, hts]
            simp [List.all_cons, hhead, he c hm]

theorem WorkState.fromStr_toStr (s : WorkState) :
    WorkState.fromStr s.toStr = some s := by
  cases s <;> rfl

/-- C1: Candidate selection is predicate-correct: over string-typed
filter values and string-typed metadata, `content_with_unapplied_extractor`
returns exactly the content items of the repository whose completion
marker for the binding is absent or below 1 and that satisfy every
filter, where `Eq` holds iff the metadata field equals the value, `Neq`
iff it differs, filters combine with AND, and a missing metadata field
excludes the content rather than erring. -/
theorem candidate_selection_predicate_correct (st : Store) (repo : String)
    (binding : ExtractorBinding)
    (hf : ∀ f ∈ binding.filters, (f.value.asStr).isSome = true)
    (hm : ∀ c ∈ st.content, ∀ p ∈ c.metadata, (p.2.asStr).isSome = true) :
    content_with_unapplied_extractor st repo binding none
      = some (st.content.filter (specSelected repo binding)) := by
  obtain ⟨conds, hc, he⟩ := compileFilters_eq_some binding.filters hf
  have hrow : ∀ c ∈ st.content,
      rowSelected repo binding.name none conds c = specSelected repo binding c := by
    intro c hcm
    unfold rowSelected specSelected
    rw [completionPending_eq_spec, he c (hm c hcm)]
    simp
  unfold content_with_unapplied_extractor
  rw [hc]
  simp [List.filter_congr hrow]

/-- Witness for C1 at the spec's own scenario: binding filter
`Eq(topic, "pipe")` over two contents with `topic="pipe"` / `topic="baz"`. -/
theorem candidate_selection_predicate_correct_witness :
    (∀ f ∈ eqBinding.filters, (f.value.asStr).isSome = true) ∧
    (∀ c ∈ selStore.content, ∀ p ∈ c.metadata, (p.2.asStr).isSome = true) ∧
    content_with_unapplied_extractor selStore "test" eqBinding none
      = some (selStore.content.filter (specSelected "test" eqBinding)) :=
  ⟨by decide, by decide,
    candidate_selection_predicate_correct selStore "test" eqBinding
      (by decide) (by decide)⟩

/-- C4 counterexample: `Work::new` called with `worker_id = Some("w")`
yields `executor_id = Some("w")`, not `None` — the claim's
"for every value of the optional executor argument" part fails. -/
theorem work_new_executor_counterexample :
    (Work.new "c" "r" "e" "b" .null (some "w")).executor_id = some "w" ∧
    some "w" ≠ (none : Option String) :=
  ⟨rfl, by simp⟩

/-- C4 amended: `Work::new` always starts `Pending`, and `executor_id`
is the executor argument passed through unchanged (hence `None` exactly
when the argument is `None`). -/
theorem work_new_pending_executor_passthrough (c r e b : String)
    (p : JsonVal) (w : Option String) :
    (Work.new c r e b p w).work_state = .pending ∧
    (Work.new c r e b p w).executor_id = w :=
  ⟨rfl, rfl⟩

/-- C5 counterexample: with the filter `Eq(topic, 3)` (a non-string
value) selection does not return a result — it hits the
`value.as_str().unwrap()` panic (modelled as `none`). -/
theorem selection_nonstring_filter_counterexample :
    content_with_unapplied_extractor selStore "test" badBinding none = none := by
  decide

/-- C5 amended: whenever any filter value of the binding is not a JSON
string, `content_with_unapplied_extractor` panics
(`value.as_str().unwrap()`) while building the query — for every store,
repository and content restriction. -/
theorem selection_nonstring_filter_panics (st : Store) (repo : String)
    (binding : ExtractorBinding) (cid : Option String)
    (h : ∃ f ∈ binding.filters, f.value.asStr = none) :
    content_with_unapplied_extractor st repo binding cid = none := by
  unfold content_with_unapplied_extractor
  rw [compileFilters_eq_none binding.filters h]
  rfl

theorem selection_nonstring_filter_panics_witness :
    (∃ f ∈ badBinding.filters, f.value.asStr = none) ∧
    content_with_unapplied_extractor emptyStore "test" badBinding none = none :=
  ⟨by decide,
    selection_nonstring_filter_panics emptyStore "test" badBinding none
      (by decide)⟩

/-- C10: acknowledging an extraction event id with no matching row
panics (the `.unwrap()` of the `None` lookup result, modelled as
`none`) instead of returning a typed NotFound error. -/
theorem acknowledge_missing_event_panics (st : Store) (eid : String) (t : Int)
    (h : ∀ e ∈ st.events, e.id ≠ eid) :
    mark_extraction_event_as_processed st eid t = none := by
  unfold mark_extraction_event_as_processed
  have hnone : st.events.find? (fun e => e.id == eid) = none :=
    List.find?_eq_none.mpr (fun e he => by simpa using h e he)
  rw [hnone]

theorem acknowledge_missing_event_panics_witness :
    (∀ e ∈ emptyStore.events, e.id ≠ "no-such-event") ∧
    mark_extraction_event_as_processed emptyStore "no-such-event" 0 = none :=
  ⟨by decide,
    acknowledge_missing_event_panics emptyStore "no-such-event" 0 (by decide)⟩

/-- C2 counterexample: acknowledging event `ev1` at time 5 and again at
time 7 leaves `processed_at = Some 7` — the value of the second call,
not the value set by the first call (the code writes
`SystemTime::now()` unconditionally on every call). -/
theorem acknowledge_idempotent_counterexample :
    ((mark_extraction_event_as_processed evStore "ev1" 5).bind
        (fun s => mark_extraction_event_as_processed s "ev1" 7)).map
      (fun s => s.events.map (fun e => e.processed_at)) = some [some 7] ∧
    some (7 : Int) ≠ some (5 : Int) := by
  refine ⟨by decide, by decide⟩

/-- C2 amended: for every event that exists in the store, calling
`mark_extraction_event_as_processed` twice never errors, and after the
second call `processed_at` holds the second call's timestamp (each call
overwrites it with the current time; it equals the first value only when
both calls observe the same clock reading). -/
theorem mark_ack_eq_some (st : Store) (eid : String) (t : Int) (a : EventModel)
    (ha : st.events.find? (fun e => e.id == eid) = some a) :
    mark_extraction_event_as_processed st eid t
      = some { st with events := st.events.map (fun e =>
          if e.id = eid then { e with processed_at := some t } else e) } := by
  unfold mark_extraction_event_as_processed
  rw [ha]

theorem acknowledge_twice_no_error_overwrites (st : Store) (eid : String)
    (t1 t2 : Int) (h : ∃ e ∈ st.events, e.id = eid) :
    ∃ st1 st2,
      mark_extraction_event_as_processed st eid t1 = some st1 ∧
      mark_extraction_event_as_processed st1 eid t2 = some st2 ∧
      st2.events.length = st.events.length ∧
      ∀ e ∈ st2.events, e.id = eid → e.processed_at = some t2 := by
  obtain ⟨e0, he0, hid0⟩ := h
  obtain ⟨a, ha⟩ : ∃ a, st.events.find? (fun e => e.id == eid) = some a := by
    rw [← Option.isSome_iff_exists, List.find?_isSome]
    exact ⟨e0, he0, by simp [hid0]⟩
  have h1 := mark_ack_eq_some st eid t1 a ha
  obtain ⟨a', ha'⟩ : ∃ a', (st.events.map (fun e =>
      if e.id = eid then { e with processed_at := some t1 } else e)).find?
        (fun e => e.id == eid) = some a' := by
    rw [← Option.isSome_iff_exists, List.find?_isSome]
    exact ⟨_, List.mem_map_of_mem _ he0, by simp [hid0]⟩
  have h2 := mark_ack_eq_some ⟨st.content, st.events.map (fun e =>
      if e.id = eid then { e with processed_at := some t1 } else e), st.work⟩
    eid t2 a' ha'
  refine ⟨_, _, h1, h2, by simp, ?_⟩
  intro e he hide
  obtain ⟨y, hy, rfl⟩ := List.mem_map.mp he
  by_cases hyid : y.id = eid
  · simp [hyid]
  · simp only [if_neg hyid] at hide ⊢
    exact absurd hide hyid

theorem acknowledge_twice_no_error_overwrites_witness :
    (∃ e ∈ evStore.events, e.id = "ev1") ∧
    (∃ st1 st2,
      mark_extraction_event_as_processed evStore "ev1" 5 = some st1 ∧
      mark_extraction_event_as_processed st1 "ev1" 7 = some st2 ∧
      st2.events.length = evStore.events.length ∧
      ∀ e ∈ st2.events, e.id = "ev1" → e.processed_at = some 7) :=
  ⟨by decide,
    acknowledge_twice_no_error_overwrites evStore "ev1" 5 7 (by decide)⟩

/-- C3 counterexample: inserting the Work derived from the quadruple
`("c1", "test", "extractor1", "binding1")` twice makes the second
`insert_work` return a database uniqueness error (the plain `INSERT`
has no `ON CONFLICT DO NOTHING`), so the second call is not a safe
no-op. -/
theorem insert_work_idempotent_counterexample :
    (insert_work emptyStore cx3Work).bind (fun s => insert_work s cx3Work)
      = .error .uniqueViolation := by
  rfl

/-- C3 amended: for a Work id not yet in the store, the first
`insert_work` succeeds; a second `insert_work` with the Work derived
from the same quadruple (the identical `Work`, by id determinism) fails
with a database error while the store keeps exactly one row with that
id, unaltered. -/
theorem insert_work_second_call_errors (st : Store) (w : Work)
    (h : ∀ r ∈ st.work, r.id ≠ w.id) :
    insert_work st w = .ok { st with work := st.work ++ [workModelOf w] } ∧
    insert_work { st with work := st.work ++ [workModelOf w] } w
      = .error .uniqueViolation ∧
    (({ st with work := st.work ++ [workModelOf w] } : Store).work.filter
      (fun r => r.id = w.id)).length = 1 := by
  have hany : st.work.any (fun r => r.id = w.id) = false := by
    rw [List.any_eq_false]
    intro r hr
    simpa using h r hr
  have hfil : st.work.filter (fun r => r.id = w.id) = [] :=
    List.filter_eq_nil_iff.mpr (fun r hr => by simpa using h r hr)
  refine ⟨?_, ?_, ?_⟩
  · simp [insert_work, hany]
  · simp [insert_work, List.any_append, workModelOf]
  · simp [List.filter_append, hfil, workModelOf]

theorem insert_work_second_call_errors_witness :
    (∀ r ∈ emptyStore.work, r.id ≠ cx3Work.id) ∧
    (insert_work emptyStore cx3Work
        = .ok { emptyStore with work := emptyStore.work ++ [workModelOf cx3Work] } ∧
      insert_work { emptyStore with work := emptyStore.work ++ [workModelOf cx3Work] }
          cx3Work = .error .uniqueViolation ∧
      (({ emptyStore with work := emptyStore.work ++ [workModelOf cx3Work] } : Store).work.filter
        (fun r => r.id = cx3Work.id)).length = 1) :=
  ⟨by decide, insert_work_second_call_errors emptyStore cx3Work (by decide)⟩

/-- C6: Completion marking is frame-isolated: `mark_content_as_processed`
on content `cid` for binding `A` touches no event or work row, keeps
every content row count and id, sets only `A`'s entry (to 1) in the
matched content's completion map while `B`'s marker (`A ≠ B`) and every
other field are unchanged, and leaves rows with a different id entirely
unchanged. -/
theorem mark_processed_frame_isolated (st : Store) (cid A B : String)
    (hAB : A ≠ B) :
    (mark_content_as_processed st cid A).events = st.events ∧
    (mark_content_as_processed st cid A).work = st.work ∧
    (mark_content_as_processed st cid A).content.length = st.content.length ∧
    ∀ i (hi : i < st.content.length)
      (hi' : i < (mark_content_as_processed st cid A).content.length),
      (((mark_content_as_processed st cid A).content.get ⟨i, hi'⟩).id
          = (st.content.get ⟨i, hi⟩).id) ∧
      (((mark_content_as_processed st cid A).content.get ⟨i, hi'⟩).repository_id
          = (st.content.get ⟨i, hi⟩).repository_id) ∧
      (((mark_content_as_processed st cid A).content.get ⟨i, hi'⟩).payload
          = (st.content.get ⟨i, hi⟩).payload) ∧
      (((mark_content_as_processed st cid A).content.get ⟨i, hi'⟩).payload_type
          = (st.content.get ⟨i, hi⟩).payload_type) ∧
      (((mark_content_as_processed st cid A).content.get ⟨i, hi'⟩).metadata
          = (st.content.get ⟨i, hi⟩).metadata) ∧
      (((mark_content_as_processed st cid A).content.get ⟨i, hi'⟩).content_type
          = (st.content.get ⟨i, hi⟩).content_type) ∧
      (lookupMarker ((mark_content_as_processed st cid A).content.get
            ⟨i, hi'⟩).extractor_bindings_state B
          = lookupMarker (st.content.get ⟨i, hi⟩).extractor_bindings_state B) ∧
      ((st.content.get ⟨i, hi⟩).id = cid →
        lookupMarker ((mark_content_as_processed st cid A).content.get
            ⟨i, hi'⟩).extractor_bindings_state A = some 1) ∧
      ((st.content.get ⟨i, hi⟩).id ≠ cid →
        (mark_content_as_processed st cid A).content.get ⟨i, hi'⟩
          = st.content.get ⟨i, hi⟩) := by
  refine ⟨rfl, rfl, by simp [mark_content_as_processed], ?_⟩
  intro i hi hi'
  have hget : (mark_content_as_processed st cid A).content.get ⟨i, hi'⟩ = if (st.content.get ⟨i, hi⟩).id = cid then { st.content.get ⟨i, hi⟩ with extractor_bindings_state := setMarker (st.content.get ⟨i, hi⟩).extractor_bindings_state A 1 } else st.content.get ⟨i, hi⟩ := by
    simp [mark_content_as_processed, List.get_eq_getElem, List.getElem_map]
  rw [hget]
  by_cases hc : (st.content.get ⟨i, hi⟩).id = cid
  · rw [if_pos hc]
    exact ⟨rfl, rfl, rfl, rfl, rfl, rfl,
      lookupMarker_setMarker_ne _ _ _ _ (fun hBA => hAB hBA.symm),
      fun _ => lookupMarker_setMarker_self _ _ _,
      fun hne => absurd hc hne⟩
  · rw [if_neg hc]
    exact ⟨rfl, rfl, rfl, rfl, rfl, rfl, rfl,
      fun hh => absurd hh hc, fun _ => rfl⟩

theorem mark_processed_frame_isolated_witness :
    ("bindA" : String) ≠ "bindB" ∧
    ((mark_content_as_processed selStore "c1" "bindA").events
        = selStore.events ∧
      (mark_content_as_processed selStore "c1" "bindA").work = selStore.work ∧
      (mark_content_as_processed selStore "c1" "bindA").content.length
        = selStore.content.length ∧
      ∀ i (hi : i < selStore.content.length)
        (hi' : i < (mark_content_as_processed selStore "c1" "bindA").content.length),
        (((mark_content_as_processed selStore "c1" "bindA").content.get
            ⟨i, hi'⟩).id = (selStore.content.get ⟨i, hi⟩).id) ∧
        (((mark_content_as_processed selStore "c1" "bindA").content.get
            ⟨i, hi'⟩).repository_id
          = (selStore.content.get ⟨i, hi⟩).repository_id) ∧
        (((mark_content_as_processed selStore "c1" "bindA").content.get
            ⟨i, hi'⟩).payload = (selStore.content.get ⟨i, hi⟩).payload) ∧
        (((mark_content_as_processed selStore "c1" "bindA").content.get
            ⟨i, hi'⟩).payload_type
          = (selStore.content.get ⟨i, hi⟩).payload_type) ∧
        (((mark_content_as_processed selStore "c1" "bindA").content.get
            ⟨i, hi'⟩).metadata = (selStore.content.get ⟨i, hi⟩).metadata) ∧
        (((mark_content_as_processed selStore "c1" "bindA").content.get
            ⟨i, hi'⟩).content_type
          = (selStore.content.get ⟨i, hi⟩).content_type) ∧
        (lookupMarker ((mark_content_as_processed selStore "c1" "bindA").content.get
              ⟨i, hi'⟩).extractor_bindings_state "bindB"
            = lookupMarker (selStore.content.get
              ⟨i, hi⟩).extractor_bindings_state "bindB") ∧
        ((selStore.content.get ⟨i, hi⟩).id = "c1" →
          lookupMarker ((mark_content_as_processed selStore "c1" "bindA").content.get
              ⟨i, hi'⟩).extractor_bindings_state "bindA" = some 1) ∧
        ((selStore.content.get ⟨i, hi⟩).id ≠ "c1" →
          (mark_content_as_processed selStore "c1" "bindA").content.get ⟨i, hi'⟩
            = selStore.content.get ⟨i, hi⟩)) :=
  ⟨by decide, mark_processed_frame_isolated selStore "c1" "bindA" "bindB"
    (by decide)⟩

/-- C7: `update_work_state` is an unconditional state overwrite with a
NotFound failure mode: when a row with the id exists, the state column
of every matching row is set to the new state whatever its prior value,
the call returns the updated Work (state = new state, same id), all
other rows are untouched; when no row matches, it returns an
"unable to find work" error and the store is unchanged. -/
theorem update_work_state_unconditional (st : Store) (wid : String)
    (s : WorkState) :
    ((∃ m ∈ st.work, m.id = wid) →
      ∃ w, (update_work_state st wid s).2 = some (.ok w) ∧
        w.work_state = s ∧ w.id = wid ∧
        (update_work_state st wid s).1.content = st.content ∧
        (update_work_state st wid s).1.events = st.events ∧
        (update_work_state st wid s).1.work.length = st.work.length ∧
        ∀ i (hi : i < st.work.length)
          (hi' : i < (update_work_state st wid s).1.work.length),
          (((update_work_state st wid s).1.work.get ⟨i, hi'⟩).id
              = (st.work.get ⟨i, hi⟩).id) ∧
          ((st.work.get ⟨i, hi⟩).id = wid →
            ((update_work_state st wid s).1.work.get ⟨i, hi'⟩).state
              = s.toStr) ∧
          ((st.work.get ⟨i, hi⟩).id ≠ wid →
            (update_work_state st wid s).1.work.get ⟨i, hi'⟩
              = st.work.get ⟨i, hi⟩)) ∧
    ((∀ m ∈ st.work, m.id ≠ wid) →
      (update_work_state st wid s).1 = st ∧
      ∃ msg, (update_work_state st wid s).2 = some (.error msg)) := by
  constructor
  · rintro ⟨m0, hm0, hid0⟩
    have hmem : m0 ∈ st.work.filter (fun m => m.id = wid) :=
      List.mem_filter.mpr ⟨hm0, by simp [hid0]⟩
    cases hfil : st.work.filter (fun m => m.id = wid) with
    | nil => rw [hfil] at hmem; simp at hmem
    | cons mh mt =>
      have hmh : mh.id = wid := by
        have hmh' : mh ∈ st.work.filter (fun m => m.id = wid) :=
          hfil ▸ List.mem_cons_self mh mt
        simpa using (List.mem_filter.mp hmh').2
      have hpair : update_work_state st wid s = ({ st with work := st.work.map (fun m => if m.id = wid then { m with state := s.toStr } else m) }, some (.ok { id := mh.id, content_id := mh.content_id, repository_id := mh.repository_id, extractor := mh.extractor, extractor_binding := mh.extractor_binding, extractor_params := mh.extractor_params, work_state := s, executor_id := mh.worker_id })) := by
        unfold update_work_state
        rw [hfil]
        simp [workTryFrom, WorkState.fromStr_toStr]
      refine ⟨{ id := mh.id, content_id := mh.content_id, repository_id := mh.repository_id, extractor := mh.extractor, extractor_binding := mh.extractor_binding, extractor_params := mh.extractor_params, work_state := s, executor_id := mh.worker_id }, by rw [hpair], rfl, hmh, by rw [hpair], by rw [hpair], by simp [hpair], ?_⟩
      intro i hi hi'
      have hget : (update_work_state st wid s).1.work.get ⟨i, hi'⟩ = if (st.work.get ⟨i, hi⟩).id = wid then { st.work.get ⟨i, hi⟩ with state := s.toStr } else st.work.get ⟨i, hi⟩ := by
        simp [hpair, List.get_eq_getElem, List.getElem_map]
      rw [hget]
      by_cases hcw : (st.work.get ⟨i, hi⟩).id = wid
      · rw [if_pos hcw]
        exact ⟨rfl, fun _ => rfl, fun hne => absurd hcw hne⟩
      · rw [if_neg hcw]
        exact ⟨rfl, fun hh => absurd hh hcw, fun _ => rfl⟩
  · intro h
    have hfil : st.work.filter (fun m => m.id = wid) = [] :=
      List.filter_eq_nil_iff.mpr (fun m hm => by simpa using h m hm)
    have hmap : st.work.map (fun m =>
        if m.id = wid then { m with state := s.toStr } else m) = st.work := by
      have hcg := List.map_congr_left (l := st.work)
        (f := fun m => if m.id = wid then { m with state := s.toStr } else m)
        (g := id) (fun m hm => if_neg (h m hm))
      rw [hcg, List.map_id]
    have hpair : update_work_state st wid s = ({ st with work := st.work.map (fun m => if m.id = wid then { m with state := s.toStr } else m) }, some (.error ("unable to find work " ++ wid))) := by
      unfold update_work_state
      rw [hfil]
      rfl
    constructor
    · rw [hpair]
      show { st with work := st.work.map (fun m => if m.id = wid then { m with state := s.toStr } else m) } = st
      rw [hmap]
    · exact ⟨_, by rw [hpair]⟩

theorem update_work_state_unconditional_witness :
    (∃ m ∈ wStore.work, m.id = "w1") ∧
    (∃ w, (update_work_state wStore "w1" .pending).2 = some (.ok w) ∧
      w.work_state = .pending ∧ w.id = "w1" ∧
      (update_work_state wStore "w1" .pending).1.content = wStore.content ∧
      (update_work_state wStore "w1" .pending).1.events = wStore.events ∧
      (update_work_state wStore "w1" .pending).1.work.length
        = wStore.work.length ∧
      ∀ i (hi : i < wStore.work.length)
        (hi' : i < (update_work_state wStore "w1" .pending).1.work.length),
        (((update_work_state wStore "w1" .pending).1.work.get ⟨i, hi'⟩).id
            = (wStore.work.get ⟨i, hi⟩).id) ∧
        ((wStore.work.get ⟨i, hi⟩).id = "w1" →
          ((update_work_state wStore "w1" .pending).1.work.get ⟨i, hi'⟩).state
            = WorkState.pending.toStr) ∧
        ((wStore.work.get ⟨i, hi⟩).id ≠ "w1" →
          (update_work_state wStore "w1" .pending).1.work.get ⟨i, hi'⟩
            = wStore.work.get ⟨i, hi⟩)) :=
  ⟨by decide, (update_work_state_unconditional wStore "w1" .pending).1
    (by decide)⟩

theorem assign_work_rows (st : Store) (alloc : List (String × String)) :
    (assign_work st alloc).work = st.work.map (applyAlloc alloc) := by
  induction alloc generalizing st with
  | nil =>
      show st.work = st.work.map (applyAlloc [])
      have : st.work.map (applyAlloc []) = st.work.map id :=
        List.map_congr_left (fun r _ => rfl)
      rw [this, List.map_id]
  | cons p rest ih =>
      show (assign_work { st with work := st.work.map (fun r => if r.id = p.1 then { r with worker_id := some p.2 } else r) } rest).work = st.work.map (applyAlloc (p :: rest))
      rw [ih]
      show (st.work.map (fun r => if r.id = p.1 then { r with worker_id := some p.2 } else r)).map (applyAlloc rest) = st.work.map (applyAlloc (p :: rest))
      rw [List.map_map]
      exact List.map_congr_left (fun r _ => rfl)

theorem assign_work_content (st : Store) (alloc : List (String × String)) :
    (assign_work st alloc).content = st.content := by
  induction alloc generalizing st with
  | nil => rfl
  | cons p rest ih => exact ih _

theorem assign_work_events (st : Store) (alloc : List (String × String)) :
    (assign_work st alloc).events = st.events := by
  induction alloc generalizing st with
  | nil => rfl
  | cons p rest ih => exact ih _

theorem applyAlloc_frame (alloc : List (String × String)) (r : WorkModel) :
    (applyAlloc alloc r).id = r.id ∧
    (applyAlloc alloc r).state = r.state ∧
    (applyAlloc alloc r).content_id = r.content_id ∧
    (applyAlloc alloc r).extractor = r.extractor ∧
    (applyAlloc alloc r).extractor_binding = r.extractor_binding ∧
    (applyAlloc alloc r).extractor_params = r.extractor_params ∧
    (applyAlloc alloc r).repository_id = r.repository_id := by
  induction alloc generalizing r with
  | nil => exact ⟨rfl, rfl, rfl, rfl, rfl, rfl, rfl⟩
  | cons p rest ih =>
      by_cases hr : r.id = p.1
      · have := ih { r with worker_id := some p.2 }
        simpa [applyAlloc, hr] using this
      · simpa [applyAlloc, hr] using ih r

theorem applyAlloc_no_key (alloc : List (String × String)) (r : WorkModel)
    (h : ∀ p ∈ alloc, p.1 ≠ r.id) : applyAlloc alloc r = r := by
  induction alloc with
  | nil => rfl
  | cons p rest ih =>
      have hp := h p (List.mem_cons_self p rest)
      rw [applyAlloc, if_neg (fun hh => hp hh.symm)]
      exact ih (fun q hq => h q (List.mem_cons_of_mem p hq))

theorem applyAlloc_assigned (alloc : List (String × String)) (wid eid : String)
    (r : WorkModel) (hnd : (alloc.map Prod.fst).Nodup)
    (hmem : (wid, eid) ∈ alloc) (hr : r.id = wid) :
    (applyAlloc alloc r).worker_id = some eid := by
  induction alloc generalizing r with
  | nil => simp at hmem
  | cons p rest ih =>
      rw [List.map_cons] at hnd
      obtain ⟨hhead, hrest⟩ := List.nodup_cons.mp hnd
      rcases List.mem_cons.mp hmem with heq | hmem'
      · have hp1 : r.id = p.1 := by rw [hr, ← heq]
        rw [applyAlloc, if_pos hp1]
        have hnokey : ∀ q ∈ rest, q.1 ≠ ({ r with worker_id := some p.2 } : WorkModel).id := by
          intro q hq hqid
          apply hhead
          have h1 : q.1 ∈ rest.map Prod.fst := List.mem_map_of_mem Prod.fst hq
          have h2 : q.1 = p.1 := hqid.trans hp1
          exact h2 ▸ h1
        rw [applyAlloc_no_key rest _ hnokey]
        rw [← heq]
      · have hne : r.id ≠ p.1 := by
          intro hh
          apply hhead
          have hw : wid ∈ rest.map Prod.fst := List.mem_map_of_mem Prod.fst hmem'
          rwa [← hr, hh] at hw
        rw [applyAlloc, if_neg hne]
        exact ih r hrest hmem' hr

/-- C8: `assign_work` is a blind, executor-only write: for an allocation
map (distinct work ids) containing `(wid, eid)`, the call touches no
content or event row, keeps every work row's count, id, state and all
other columns, and sets `worker_id = some eid` on every row whose id is
`wid` whether or not an executor was already assigned. -/
theorem assign_work_blind_executor_write (st : Store)
    (alloc : List (String × String)) (wid eid : String)
    (hnd : (alloc.map Prod.fst).Nodup) (hmem : (wid, eid) ∈ alloc) :
    (assign_work st alloc).content = st.content ∧
    (assign_work st alloc).events = st.events ∧
    (assign_work st alloc).work.length = st.work.length ∧
    ∀ i (hi : i < st.work.length)
      (hi' : i < (assign_work st alloc).work.length),
      (((assign_work st alloc).work.get ⟨i, hi'⟩).id
          = (st.work.get ⟨i, hi⟩).id) ∧
      (((assign_work st alloc).work.get ⟨i, hi'⟩).state
          = (st.work.get ⟨i, hi⟩).state) ∧
      (((assign_work st alloc).work.get ⟨i, hi'⟩).content_id
          = (st.work.get ⟨i, hi⟩).content_id) ∧
      (((assign_work st alloc).work.get ⟨i, hi'⟩).extractor
          = (st.work.get ⟨i, hi⟩).extractor) ∧
      (((assign_work st alloc).work.get ⟨i, hi'⟩).extractor_binding
          = (st.work.get ⟨i, hi⟩).extractor_binding) ∧
      (((assign_work st alloc).work.get ⟨i, hi'⟩).extractor_params
          = (st.work.get ⟨i, hi⟩).extractor_params) ∧
      (((assign_work st alloc).work.get ⟨i, hi'⟩).repository_id
          = (st.work.get ⟨i, hi⟩).repository_id) ∧
      ((st.work.get ⟨i, hi⟩).id = wid →
        ((assign_work st alloc).work.get ⟨i, hi'⟩).worker_id = some eid) := by
  refine ⟨assign_work_content st alloc, assign_work_events st alloc,
    by rw [assign_work_rows]; simp, ?_⟩
  intro i hi hi'
  have hget : (assign_work st alloc).work.get ⟨i, hi'⟩
      = applyAlloc alloc (st.work.get ⟨i, hi⟩) := by
    simp [assign_work_rows, List.get_eq_getElem, List.getElem_map]
  rw [hget]
  obtain ⟨h1, h2, h3, h4, h5, h6, h7⟩ := applyAlloc_frame alloc (st.work.get ⟨i, hi⟩)
  exact ⟨h1, h2, h3, h4, h5, h6, h7,
    fun hw => applyAlloc_assigned alloc wid eid _ hnd hmem hw⟩

theorem assign_work_blind_executor_write_witness :
    ((([("w1", "executor-new")] : List (String × String)).map Prod.fst).Nodup) ∧
    (("w1", "executor-new") ∈ ([("w1", "executor-new")] : List (String × String))) ∧
    ((assign_work wStore [("w1", "executor-new")]).content = wStore.content ∧
      (assign_work wStore [("w1", "executor-new")]).events = wStore.events ∧
      (assign_work wStore [("w1", "executor-new")]).work.length
        = wStore.work.length ∧
      ∀ i (hi : i < wStore.work.length)
        (hi' : i < (assign_work wStore [("w1", "executor-new")]).work.length),
        (((assign_work wStore [("w1", "executor-new")]).work.get ⟨i, hi'⟩).id
            = (wStore.work.get ⟨i, hi⟩).id) ∧
        (((assign_work wStore [("w1", "executor-new")]).work.get ⟨i, hi'⟩).state
            = (wStore.work.get ⟨i, hi⟩).state) ∧
        (((assign_work wStore [("w1", "executor-new")]).work.get
            ⟨i, hi'⟩).content_id = (wStore.work.get ⟨i, hi⟩).content_id) ∧
        (((assign_work wStore [("w1", "executor-new")]).work.get
            ⟨i, hi'⟩).extractor = (wStore.work.get ⟨i, hi⟩).extractor) ∧
        (((assign_work wStore [("w1", "executor-new")]).work.get
            ⟨i, hi'⟩).extractor_binding
          = (wStore.work.get ⟨i, hi⟩).extractor_binding) ∧
        (((assign_work wStore [("w1", "executor-new")]).work.get
            ⟨i, hi'⟩).extractor_params
          = (wStore.work.get ⟨i, hi⟩).extractor_params) ∧
        (((assign_work wStore [("w1", "executor-new")]).work.get
            ⟨i, hi'⟩).repository_id
          = (wStore.work.get ⟨i, hi⟩).repository_id) ∧
        ((wStore.work.get ⟨i, hi⟩).id = "w1" →
          ((assign_work wStore [("w1", "executor-new")]).work.get
            ⟨i, hi'⟩).worker_id = some "executor-new")) :=
  ⟨by decide, by decide,
    assign_work_blind_executor_write wStore [("w1", "executor-new")]
      "w1" "executor-new" (by decide) (by decide)⟩

theorem add_content_content (st : Store) (rep : String)
    (ps : List ContentPayload) (ids : List String) :
    (add_content st rep ps ids).content
      = (ps.map (contentModelOf rep)).foldl
          (fun acc row => if acc.any (fun x => x.id = row.id) then acc
            else acc ++ [row]) st.content := by
  simp only [add_content]
  split
  · rfl
  · rfl

/-- C9: identifier derivation is deterministic: `from_text` ids agree
across calls (whatever the metadata), `Work::new` ids agree across calls
for the same `(content, repository, extractor, binding)` quadruple
(whatever the params or worker), and ingesting the same
`(repository, text)` twice into a store that does not yet hold that id
leaves exactly one Content row with it. -/
theorem identifier_derivation_deterministic (r t : String)
    (m1 m2 : List (String × JsonVal)) (st : Store) (ids1 ids2 : List String)
    (h : (st.content.filter
      (fun c => c.id = (ContentPayload.from_text r t m1).id)).length = 0) :
    (ContentPayload.from_text r t m1).id
      = (ContentPayload.from_text r t m2).id ∧
    (∀ (cid rep ex bi : String) (p1 p2 : JsonVal) (w1 w2 : Option String),
      (Work.new cid rep ex bi p1 w1).id = (Work.new cid rep ex bi p2 w2).id) ∧
    ((add_content (add_content st r [ContentPayload.from_text r t m1] ids1) r
        [ContentPayload.from_text r t m2] ids2).content.filter
      (fun c => c.id = (ContentPayload.from_text r t m1).id)).length = 1 := by
  refine ⟨rfl, fun _ _ _ _ _ _ _ _ => rfl, ?_⟩
  have hfil : st.content.filter
      (fun c => c.id = (ContentPayload.from_text r t m1).id) = [] :=
    List.length_eq_zero.mp h
  have hnone : ∀ c ∈ st.content,
      ¬(c.id = (ContentPayload.from_text r t m1).id) := by
    intro c hc
    simpa using List.filter_eq_nil_iff.mp hfil c hc
  have hany : st.content.any (fun x => x.id = (contentModelOf r (ContentPayload.from_text r t m1)).id) = false := by
    rw [List.any_eq_false]
    intro c hc
    simp only [contentModelOf, decide_eq_true_eq]
    exact hnone c hc
  have hc1 : (add_content st r [ContentPayload.from_text r t m1] ids1).content = st.content ++ [contentModelOf r (ContentPayload.from_text r t m1)] := by
    rw [add_content_content]
    simp only [List.map_cons, List.map_nil, List.foldl_cons, List.foldl_nil]
    rw [hany]
    simp
  have hmem : contentModelOf r (ContentPayload.from_text r t m1) ∈ (add_content st r [ContentPayload.from_text r t m1] ids1).content := by
    rw [hc1]
    exact List.mem_append.mpr (Or.inr (by simp))
  have hany2 : (add_content st r [ContentPayload.from_text r t m1] ids1).content.any (fun x => x.id = (contentModelOf r (ContentPayload.from_text r t m2)).id) = true := by
    rw [List.any_eq_true]
    refine ⟨contentModelOf r (ContentPayload.from_text r t m1), hmem, ?_⟩
    exact decide_eq_true rfl
  have hc2 : (add_content (add_content st r [ContentPayload.from_text r t m1] ids1) r [ContentPayload.from_text r t m2] ids2).content = (add_content st r [ContentPayload.from_text r t m1] ids1).content := by
    rw [add_content_content]
    simp only [List.map_cons, List.map_nil, List.foldl_cons, List.foldl_nil]
    rw [hany2]
    simp
  rw [hc2, hc1, List.filter_append, hfil]
  simp [contentModelOf]

theorem identifier_derivation_deterministic_witness :
    ((emptyStore.content.filter (fun c =>
        c.id = (ContentPayload.from_text "test" "hello" []).id)).length = 0) ∧
    ((ContentPayload.from_text "test" "hello" []).id
        = (ContentPayload.from_text "test" "hello"
            [("topic", .str "pipe")]).id ∧
      (∀ (cid rep ex bi : String) (p1 p2 : JsonVal) (w1 w2 : Option String),
        (Work.new cid rep ex bi p1 w1).id
          = (Work.new cid rep ex bi p2 w2).id) ∧
      ((add_content (add_content emptyStore "test"
          [ContentPayload.from_text "test" "hello" []] ["e1"]) "test"
          [ContentPayload.from_text "test" "hello" [("topic", .str "pipe")]]
          ["e2"]).content.filter
        (fun c => c.id
          = (ContentPayload.from_text "test" "hello" []).id)).length = 1) :=
  ⟨by decide,
    identifier_derivation_deterministic "test" "hello" []
      [("topic", .str "pipe")] emptyStore ["e1"] ["e2"] (by decide)⟩
